import Mathlib

/-
Verification development for the KaspaFunding MiningPool repository.

The Lean definitions below are a shallow embedding of the pool core:

* `src/stratum/stratum.ts` (primary version): the `Stratum` class — the
  PPLNS contribution window (a JS `Map<bigint, Contribution>` keyed by
  nonce, embedded as an insertion-ordered association list), `submit`,
  `pruneContributions`, `dump`, `subscribe`, `authorize`, `announce`.
  The alternate version of `announce` appearing later in the same file
  is embedded separately as `announceMsgV2`.
* `src/pool/index.ts`: `Pool.record` (the block-accepted path).
* `src/pool/rewarding.ts`: `Rewarding.recordContributions`,
  `Rewarding.recordPayment` / `processPayments` (one queue step).

External collaborators (the wasm `PoW` state, `calculateTarget`,
`Address.validate`, the `Templates` registry, the node RPC and the LMDB
balance store) are modelled as explicit parameters: functions inside
`Env`, the `colorOf` argument, and a `String → ℤ` balance map.

`decimal.js` arithmetic (used for difficulties, shares and rewards) is
modelled exactly: a `Dec` value is an integer numerator over a natural
denominator, and every arithmetic operation rounds its exact rational
result to 20 significant digits (the decimal.js default precision) with
ROUND_HALF_UP (the decimal.js default rounding), normalising trailing
zeros the way decimal.js canonical storage does.  Division by zero
(`Infinity` in decimal.js) is outside the model; no claim needs it.

Timestamps (`Date.now()`) and the results of asynchronous calls are
passed in as explicit inputs.
-/

/-- Decimal value of decimal.js: an exact rational `num / den` with `den`
a positive natural.  Operations round to 20 significant digits. -/
structure Dec where
  num : ℤ
  den : ℕ
deriving DecidableEq, Repr

/-- Number of decimal digits of `n` (0 for 0), computed with `fuel`
recursion steps; called with `fuel := n` which always suffices. -/
def digitsAux : ℕ → ℕ → ℕ
  | 0, _ => 0
  | fuel+1, n => if n = 0 then 0 else digitsAux fuel (n / 10) + 1

/-- Number of decimal digits of `n`. -/
def digits10 (n : ℕ) : ℕ := digitsAux n n

/-- Number of trailing zero digits of `n` (0 for 0), fuel-driven. -/
def tzAux : ℕ → ℕ → ℕ
  | 0, _ => 0
  | fuel+1, n => if n ≠ 0 ∧ n % 10 = 0 then tzAux fuel (n / 10) + 1 else 0

/-- Number of trailing zero decimal digits of `n`. -/
def trailingZeros (n : ℕ) : ℕ := tzAux n n

/-- Round the positive rational `p / q` to `prec` significant digits with
ROUND_HALF_UP, returning numerator and denominator with trailing zeros of
the mantissa stripped (decimal.js canonical form). -/
def sigRoundNat (prec p q : ℕ) : ℕ × ℕ :=
  let dp := digits10 p
  let dq := digits10 q
  let e : ℤ := (dp : ℤ) - dq + (if q * 10 ^ dp ≤ p * 10 ^ dq then 1 else 0)
  if e ≤ (prec : ℤ) then
    let sn := ((prec : ℤ) - e).toNat
    let m := (2 * p * 10 ^ sn + q) / (2 * q)
    let t := min (trailingZeros m) sn
    (m / 10 ^ t, 10 ^ (sn - t))
  else
    let sn := (e - (prec : ℤ)).toNat
    (((2 * p + q * 10 ^ sn) / (2 * q * 10 ^ sn)) * 10 ^ sn, 1)

/-- Round a `Dec` to `prec` significant digits, ROUND_HALF_UP (ties away
from zero, matching the decimal.js default). -/
def Dec.sigRound (prec : ℕ) (x : Dec) : Dec :=
  if x.num = 0 then ⟨0, 1⟩
  else
    let r := sigRoundNat prec x.num.natAbs x.den
    if x.num < 0 then ⟨-(r.1 : ℤ), r.2⟩ else ⟨(r.1 : ℤ), r.2⟩

/-- decimal.js `add` at the default precision of 20 significant digits. -/
def Dec.add (a b : Dec) : Dec :=
  Dec.sigRound 20 ⟨a.num * b.den + b.num * a.den, a.den * b.den⟩

/-- decimal.js `mul` at the default precision of 20 significant digits. -/
def Dec.mul (a b : Dec) : Dec :=
  Dec.sigRound 20 ⟨a.num * b.num, a.den * b.den⟩

/-- decimal.js `div` at the default precision of 20 significant digits
(divisor must be nonzero; decimal.js would give `Infinity`). -/
def Dec.div (a b : Dec) : Dec :=
  Dec.sigRound 20
    (if b.num < 0 then ⟨-(a.num * b.den), a.den * b.num.natAbs⟩
     else ⟨a.num * b.den, a.den * b.num.natAbs⟩)

/-- decimal.js `lessThanOrEqualTo` / `greaterThanOrEqualTo` comparison. -/
def Dec.ble (a b : Dec) : Bool := a.num * b.den ≤ b.num * a.den

/-- decimal.js `floor` (round toward negative infinity, exact). -/
def Dec.floor (a : Dec) : ℤ := Int.fdiv a.num (a.den : ℤ)

/-- The exact `Dec` representing an integer (`new Decimal(n.toString())`:
the decimal.js constructor does not round). -/
def Dec.ofInt (n : ℤ) : Dec := ⟨n, 1⟩

/-- Value of one hex digit character, `none` if not a hex digit. -/
def hexDigitVal? (c : Char) : Option ℕ :=
  if '0' ≤ c ∧ c ≤ '9' then some (c.toNat - 48)
  else if 'a' ≤ c ∧ c ≤ 'f' then some (c.toNat - 87)
  else if 'A' ≤ c ∧ c ≤ 'F' then some (c.toNat - 55)
  else none

/-- JS `BigInt('0x' + s)`: `none` when the string is empty or contains a
non-hex character (where JS throws a `SyntaxError`). -/
def parseHex? (s : String) : Option ℕ :=
  if s.isEmpty then none
  else
    s.toList.foldl
      (fun acc c =>
        match acc, hexDigitVal? c with
        | some n, some d => some (16 * n + d)
        | _, _ => none)
      (some 0)

/-- JS `String.prototype.split('.')` on a character list: splits at every
dot, always returning at least one (possibly empty) component. -/
def splitDotList : List Char → List (List Char)
  | [] => [[]]
  | c :: cs =>
    match splitDotList cs with
    | [] => [[]]
    | h :: t => if c = '.' then [] :: h :: t else (c :: h) :: t

/-- JS `const [address, workerName] = identity.split('.')`: the first
dot-separated component and, optionally, the second. -/
def splitIdentity (identity : String) : String × Option String :=
  let parts := (splitDotList identity.toList).map String.mk
  (parts.headD "", parts[1]?)

/-- Lowercase hex digit character for a value below 16. -/
def hexChar (n : ℕ) : Char := (String.toList "0123456789abcdef").getD n '0'

/-- Two lowercase hex characters of one byte. -/
def byteHex (b : ℕ) : String := String.mk [hexChar (b / 16), hexChar (b % 16)]

/-- JS `Buffer.alloc(8).writeBigUInt64LE(timestamp)` followed by
`toString('hex')`: 8 little-endian bytes, 16 lowercase hex characters. -/
def u64LEHex (timestamp : ℕ) : String :=
  String.join ((List.range 8).map (fun i => byteHex (timestamp / 256 ^ i % 256)))

/-- `Contribution` of `src/stratum/stratum.ts`. -/
structure Contribution where
  address : String
  difficulty : Dec
  timestamp : ℕ
  workerName : Option String
deriving DecidableEq, Repr

/-- The `contributions: Map<bigint, Contribution>` field: a JS `Map`
iterates in insertion order, embedded as an association list. -/
abbrev ContributionMap := List (ℕ × Contribution)

/-- JS `Map.has`. -/
def mapHas {κ α : Type} [BEq κ] (m : List (κ × α)) (k : κ) : Bool :=
  m.any (fun e => e.1 == k)

/-- JS `Map.set`: replaces the value in place when the key exists (keeping
its insertion position), otherwise appends at the end. -/
def mapSet {κ α : Type} [BEq κ] (m : List (κ × α)) (k : κ) (v : α) : List (κ × α) :=
  if mapHas m k then m.map (fun e => if e.1 == k then (k, v) else e) else m ++ [(k, v)]

/-- JS `Map.delete`: removes the entry with the key, preserving the order
of the remaining entries. -/
def mapDelete {κ α : Type} [BEq κ] (m : List (κ × α)) (k : κ) : List (κ × α) :=
  m.filter (fun e => !(e.1 == k))

/-- JS `Map.get`. -/
def mapGet? {κ α : Type} [BEq κ] (m : List (κ × α)) (k : κ) : Option α :=
  (m.find? (fun e => e.1 == k)).map (fun e => e.2)

/-- The wasm `PoW` state of a template: `checkWork(nonce)` returns
`[isBlock, target]` (external library, modelled as a function). -/
structure PoWState where
  checkWork : ℕ → Bool × ℕ

/-- `Encoding` of `src/templates/jobs/encoding.ts` (values used by the
stratum layer). -/
inductive Encoding where
  | BigHeader
  | Bitmain
deriving DecidableEq, Repr

/-- One entry of a JSON-RPC `params` array.  `blob` stands for the
job payload produced by `encodeJob`, whose JSON shape is opaque here. -/
inductive JsonParam where
  | str (s : String)
  | num (n : ℕ)
  | blob (tag : String)
deriving DecidableEq, Repr

/-- A server-to-miner notification: method name plus `params` array. -/
structure NotifyMsg where
  method : String
  params : List JsonParam
deriving DecidableEq, Repr

/-- External collaborators of the `Stratum` class: the `Templates`
registry (`getHash`, `getPoW`, `getHeader`), `encodeJob`, the wasm
`calculateTarget` (difficulty-to-target, applied to the session
difficulty), and the wasm `Address.validate`. -/
structure Env where
  getHash : String → Option String
  getPoW : String → Option PoWState
  getHeader : String → Option String
  encodeJob : String → ℕ → Encoding → String → JsonParam
  calculateTarget : Dec → ℕ
  validate : String → Bool

/-- Mutable state of the `Stratum` class (primary version of
`src/stratum/stratum.ts`).  `recordedShares` is the log of
`this.stats.recordShare(address, workerName or default, difficulty, true)`
calls, i.e. the persistent per-miner statistics writes.  Per-socket data
(`socket.data`) is passed into the operations directly. -/
structure StratumState where
  contributions : ContributionMap
  shareHistory : List (ℕ × Dec)
  recordedShares : List (String × String × Dec)
  subscriptors : List ℕ
  miners : List (String × List ℕ)
  pplnsWindowSize : ℕ
deriving DecidableEq, Repr

/-- A fresh `Stratum`: empty window, `pplnsWindowSize = 100000`. -/
def initStratum : StratumState :=
  { contributions := []
    shareHistory := []
    recordedShares := []
    subscriptors := []
    miners := []
    pplnsWindowSize := 100000 }

/-- The JS sort comparator `(a, b) => a[1].timestamp - b[1].timestamp`
(ascending by timestamp; `Array.prototype.sort` is stable). -/
def contribOrder (a b : ℕ × Contribution) : Bool :=
  decide (a.2.timestamp ≤ b.2.timestamp)

/-- `Stratum.pruneContributions` acting on the window list: when the map
is larger than the PPLNS window, sort the entries by timestamp and delete
the oldest ones until exactly `w` remain. -/
def pruneList (w : ℕ) (m : ContributionMap) : ContributionMap :=
  if m.length > w then
    let entries := m.mergeSort contribOrder
    let toRemove := entries.length - w
    (entries.take toRemove).foldl (fun acc e => mapDelete acc e.1) m
  else m

/-- `Stratum.pruneContributions`. -/
def pruneContributions (s : StratumState) : StratumState :=
  { s with contributions := pruneList s.pplnsWindowSize s.contributions }

/-- `Stratum.subscribe` (state part): throws when the socket is already
subscribed, otherwise adds it to `subscriptors`.  Sockets are named by
numeric identifiers; agent-string storage and encoding detection live in
`socket.data` and are modelled at the call sites that need them. -/
def subscribe (s : StratumState) (socketId : ℕ) : Option StratumState :=
  if s.subscriptors.contains socketId then none
  else some { s with subscriptors := s.subscriptors ++ [socketId] }

/-- `Stratum.authorize` (state part): validates the address component of
the identity (`none` models the thrown `Invalid address` error) and
registers the socket under the address in the `miners` map.  The
`set_extranonce` and `mining.set_difficulty` writes go to the socket
only and carry no pool state. -/
def authorize (env : Env) (s : StratumState) (socketId : ℕ) (identity : String) :
    Option StratumState :=
  let address := (splitIdentity identity).1
  if env.validate address then
    let conns := (mapGet? s.miners address).getD []
    let conns2 := if conns.contains socketId then conns else conns ++ [socketId]
    some { s with miners := mapSet s.miners address conns2 }
  else none

/-- The `StratumError` discriminants of `src/stratum/protocol.ts`. -/
inductive StratumErrKind where
  | jobNotFound
  | duplicateShare
  | lowDifficultyShare
  | unauthorized
  | internalError
deriving DecidableEq, Repr

/-- Modelled from the spec: `src/stratum/protocol.ts` (the `StratumError`
class with its numeric codes) is not among the provided sources; §6 of
the spec fixes the mapping 20 job-not-found, 21 duplicate-share,
22 low-difficulty-share, 24 unauthorized, 25 internal-error. -/
def errorCode : StratumErrKind → ℕ
  | .jobNotFound => 20
  | .duplicateShare => 21
  | .lowDifficultyShare => 22
  | .unauthorized => 24
  | .internalError => 25

/-- Result of one `Stratum.submit` call: `accepted` (with the `block`
event payload when the share solved a block), `rejected` with a
`StratumError`, or `crashed` for a non-Stratum exception (malformed hex
nonce, or the awaited `templates.submit` rejecting). -/
inductive SubmitOutcome where
  | accepted (blockEvent : Option (String × String × Dec))
  | rejected (e : StratumErrKind)
  | crashed
deriving DecidableEq, Repr

/-- Inputs of one `Stratum.submit` call: the session difficulty
(`socket.data.difficulty`), the result of the `templates.submit` node
round-trip were it to be awaited (`none` models a rejection), the value
`Date.now()` returns, and the three wire arguments. -/
structure SubmitInput where
  difficulty : Dec
  nodeSubmitResult : Option String
  now : ℕ
  identity : String
  jobId : String
  work : String
deriving DecidableEq, Repr

/-- `Stratum.submit` (primary version, `src/stratum/stratum.ts` lines
248-277).  Mutations strictly follow all throw points, so a rejected or
crashed call leaves the state untouched, exactly as in the source. -/
def submit (env : Env) (x : SubmitInput) (s : StratumState) :
    StratumState × SubmitOutcome :=
  let address := (splitIdentity x.identity).1
  let workerName := (splitIdentity x.identity).2
  match (env.getHash x.jobId).bind env.getPoW with
  | none => (s, .rejected .jobNotFound)
  | some pow =>
    match parseHex? x.work with
    | none => (s, .crashed)
    | some nonce =>
      if mapHas s.contributions nonce then (s, .rejected .duplicateShare)
      else
        let cw := pow.checkWork nonce
        if env.calculateTarget x.difficulty < cw.2 then (s, .rejected .lowDifficultyShare)
        else
          let finish : Option (String × String × Dec) → StratumState × SubmitOutcome :=
            fun ev =>
              let s2 : StratumState :=
                { s with
                  contributions :=
                    mapSet s.contributions nonce
                      ⟨address, x.difficulty, x.now, workerName⟩
                  shareHistory := s.shareHistory ++ [(x.now, x.difficulty)]
                  recordedShares :=
                    s.recordedShares ++ [(address, workerName.getD "default", x.difficulty)] }
              (pruneContributions s2, .accepted ev)
          if cw.1 then
            match x.nodeSubmitResult with
            | none => (s, .crashed)
            | some blockHash => finish (some (blockHash, address, x.difficulty))
          else finish none

/-- A sequence of `Stratum.submit` calls, `none` as soon as one of them
is not accepted. -/
def submitList (env : Env) (s : StratumState) : List SubmitInput → Option StratumState
  | [] => some s
  | x :: xs =>
    match submit env x s with
    | (s2, .accepted _) => submitList env s2 xs
    | _ => none

/-- The `Contribution` that an accepted `submit` of input `x` records. -/
def mkContribution (x : SubmitInput) : Contribution :=
  ⟨(splitIdentity x.identity).1, x.difficulty, x.now, (splitIdentity x.identity).2⟩

/-- The window entry (nonce key plus contribution) of input `x`. -/
def inputEntry (x : SubmitInput) : ℕ × Contribution :=
  ((parseHex? x.work).getD 0, mkContribution x)

/-- `Stratum.dump`: returns all window contributions and clears the
window (`this.contributions.clear()`). -/
def dump (s : StratumState) : List Contribution × StratumState :=
  (s.contributions.map (fun e => e.2), { s with contributions := [] })

/-- Observable per-socket state driving one `mining.notify` encoding. -/
structure NotifySession where
  readyStateOpen : Bool
  encoding : Option Encoding
deriving DecidableEq, Repr

/-- The message `Stratum.announce` (primary version, lines 98-125) sends
to one subscribed socket: `params: [id, encodeJob(...), timestamp]`,
skipping the socket when the template header is gone. -/
def announceMsgV1 (env : Env) (sess : NotifySession) (id hash : String) (timestamp : ℕ) :
    Option NotifyMsg :=
  if sess.readyStateOpen then
    match env.getHeader hash with
    | none => none
    | some header =>
      let enc := sess.encoding.getD Encoding.BigHeader
      some ⟨"mining.notify",
        [JsonParam.str id, env.encodeJob hash timestamp enc header, JsonParam.num timestamp]⟩
  else none

/-- The message the alternate `Stratum.announce` (lines 374-400 of the
same file) sends to one subscribed socket:
`params: [id, hash + timestampLE.toString('hex')]`. -/
def announceMsgV2 (sess : NotifySession) (id hash : String) (timestamp : ℕ) :
    Option NotifyMsg :=
  if sess.readyStateOpen then
    some ⟨"mining.notify", [JsonParam.str id, JsonParam.str (hash ++ u64LEHex timestamp)]⟩
  else none

/-- State of the `Rewarding` class of `src/pool/rewarding.ts`. -/
structure RewardingState where
  blockContributions : List (String × List Contribution)
  pendingRewards : List (ℤ × String)
deriving DecidableEq, Repr

/-- `Rewarding.recordContributions`: stores the snapshot under the block
hash and returns the contributor count. -/
def recordContributions (st : RewardingState) (blockHash : String)
    (cs : List Contribution) : RewardingState × ℕ :=
  ({ st with blockContributions := mapSet st.blockContributions blockHash cs }, cs.length)

/-- `Database.addBalance(address, delta)` on the balance map. -/
def updateBal (db : String → ℤ) (address : String) (delta : ℤ) : String → ℤ :=
  fun a => if a = address then db a + delta else db a

/-- The contribution loop of `Rewarding.processPayments` (lines 54-82):
decimal.js share and reward computation, balance update or payout-batch
entry per contribution, and the `alreadyProcessed` address set (kept as
a duplicate-free list).  Returns the balance map, the payment batch and
the processed-address list. -/
def distribute (threshold : Dec) (amount : ℤ) (contributions : List Contribution)
    (db : String → ℤ) : (String → ℤ) × List (String × ℤ) × List String :=
  let totalWork := contributions.foldl (fun acc c => Dec.add acc c.difficulty) (Dec.ofInt 0)
  contributions.foldl
    (fun acc c =>
      let db0 := acc.1
      let payments := acc.2.1
      let processed := acc.2.2
      let share := Dec.div c.difficulty totalWork
      let rewardDecimal := Dec.mul (Dec.ofInt amount) share
      let rewardInt := rewardDecimal.floor
      let balance := db0 c.address
      let newBalance := Dec.add (Dec.ofInt balance) rewardDecimal
      let processed2 := if processed.contains c.address then processed else processed ++ [c.address]
      if Dec.ble threshold newBalance then
        (updateBal db0 c.address (-balance), payments ++ [(c.address, newBalance.floor)], processed2)
      else
        (updateBal db0 c.address rewardInt, payments, processed2))
    (db, [], [])

/-- One queue step of `Rewarding.processPayments` (lines 39-93): pop the
oldest pending reward, fetch its contribution snapshot, resolve the
block color (`colorOf` returns `none` when the `getCurrentBlockColor`
RPC rejects, which the `catch` turns into `blue: false`), then either
skip the block or distribute and invoke the callback.  The result is
the rewarding state, the balance map, and the callback arguments
(`none` when no callback was invoked). -/
def processPaymentsStep (colorOf : String → Option Bool) (threshold : Dec)
    (st : RewardingState) (db : String → ℤ) :
    RewardingState × (String → ℤ) × Option (ℕ × List (String × ℤ)) :=
  match st.pendingRewards with
  | [] => (st, db, none)
  | (amount, blockHash) :: rest =>
    let contributions := (mapGet? st.blockContributions blockHash).getD []
    let blue := (colorOf blockHash).getD false
    if blue then
      let r := distribute threshold amount contributions db
      ({ st with pendingRewards := rest }, r.1, some (r.2.2.length, r.2.1))
    else
      ({ st with pendingRewards := rest }, db, none)

/-- Combined state of the `Pool` class: its `Stratum` and `Rewarding`. -/
structure PoolState where
  stratum : StratumState
  rewarding : RewardingState
deriving DecidableEq, Repr

/-- `Pool.record` (the handler of the `block` event): drain the stratum
window through `dump`, append the winning contribution, and store the
snapshot through `Rewarding.recordContributions`; returns the new pool
state and the logged contributor count. -/
def poolRecord (p : PoolState) (blockHash : String) (c : Contribution) : PoolState × ℕ :=
  let d := dump p.stratum
  let snapshot := d.1 ++ [c]
  let r := recordContributions p.rewarding blockHash snapshot
  (⟨d.2, r.1⟩, r.2)

/-- A concrete PoW state for witnesses: nonce 77 solves the block, and
the share target equals the nonce value. -/
def powA : PoWState := ⟨fun n => (decide (n = 77), n)⟩

/-- A concrete environment for witnesses and counterexamples: every job
id resolves to hash `h` with `powA`, the session target equals the
difficulty numerator, and only the address `kaspa:good` validates. -/
def envA : Env :=
  { getHash := fun _ => some "h"
    getPoW := fun _ => some powA
    getHeader := fun _ => some "hdr"
    encodeJob := fun _ _ _ _ => JsonParam.blob "job"
    calculateTarget := fun d => d.num.toNat
    validate := fun a => a == "kaspa:good" }

/-- Session difficulty 100 used by the concrete fixtures. -/
def dA : Dec := ⟨100, 1⟩

/-- A submit with nonce `0f` (15) from the authorized identity. -/
def xDup : SubmitInput := ⟨dA, some "bh", 5, "kaspa:good.w", "1", "0f"⟩

/-- The window entry fixture: nonce 15 already contributed. -/
def cWin : Contribution := ⟨"kaspa:good", dA, 1, some "w"⟩

/-- A stratum state whose window already holds nonce 15. -/
def sDup : StratumState := { initStratum with contributions := [(15, cWin)] }

/-- Two accepted submits with strictly increasing timestamps. -/
def x1 : SubmitInput := ⟨dA, none, 1, "kaspa:good.w", "1", "01"⟩

/-- Second fixture submit, timestamp 2, nonce 2. -/
def x2 : SubmitInput := ⟨dA, none, 2, "kaspa:good.w", "1", "02"⟩

/-- Input list for the window-eviction witness. -/
def c4Inputs : List SubmitInput := [x1, x2]

/-- The state `submitList envA initStratum c4Inputs` computes to. -/
def c4Final : StratumState :=
  { initStratum with
    contributions :=
      [(1, ⟨"kaspa:good", dA, 1, some "w"⟩), (2, ⟨"kaspa:good", dA, 2, some "w"⟩)]
    shareHistory := [(1, dA), (2, dA)]
    recordedShares := [("kaspa:good", "w", dA), ("kaspa:good", "w", dA)] }

/-- The state `submitList envA initStratum [x1]` computes to. -/
def c8Final : StratumState :=
  { initStratum with
    contributions := [(1, ⟨"kaspa:good", dA, 1, some "w"⟩)]
    shareHistory := [(1, dA)]
    recordedShares := [("kaspa:good", "w", dA)] }

/-- The stratum state after `authorize envA initStratum 0 "kaspa:good.w"`. -/
def s8 : StratumState := { initStratum with miners := [("kaspa:good", [0])] }

/-- A submit whose identity address `bad` does not validate. -/
def x8 : SubmitInput := ⟨dA, none, 3, "bad.w", "1", "01"⟩

/-- Balance map with every address at zero. -/
def dbZero : String → ℤ := fun _ => 0

/-- Payment threshold of 500 sompi (scenario S5). -/
def thr : Dec := ⟨500, 1⟩

/-- Color oracle declaring every block non-blue. -/
def colorRed : String → Option Bool := fun _ => some false

/-- Color oracle whose RPC always rejects (the promise rejection). -/
def colorFail : String → Option Bool := fun _ => none

/-- Color oracle declaring every block blue. -/
def colorBlue : String → Option Bool := fun _ => some true

/-- Rewarding state with one pending 1000-sompi reward for block `h`
whose snapshot is a single contribution. -/
def rw7 : RewardingState := ⟨[("h", [cWin])], [(1000, "h")]⟩

/-- Contribution of A with difficulty 1 (scenario S5). -/
def cA : Contribution := ⟨"A", ⟨1, 1⟩, 0, none⟩

/-- Contribution of B with difficulty 3 (scenario S5). -/
def cB : Contribution := ⟨"B", ⟨3, 1⟩, 0, none⟩

/-- Rewarding state of scenario S5: snapshot A and B, pending reward of
1000 sompi for block `h`. -/
def rw5 : RewardingState := ⟨[("h", [cA, cB])], [(1000, "h")]⟩

/-- Contribution set with difficulties 2, 2, 3 (total work 7). -/
def c6Contribs : List Contribution :=
  [⟨"A", ⟨2, 1⟩, 0, none⟩, ⟨"B", ⟨2, 1⟩, 0, none⟩, ⟨"C", ⟨3, 1⟩, 0, none⟩]

/-- A threshold too high for any payout in the rounding example. -/
def thrBig : Dec := ⟨10 ^ 21, 1⟩

/-- Pool state with nonce 15 in the live window. -/
def p1 : PoolState := ⟨{ initStratum with contributions := [(15, cWin)] }, ⟨[], []⟩⟩

/-- The winning contribution `Stratum.submit` emits with the block. -/
def cBlock : Contribution := ⟨"kaspa:good", dA, 7, none⟩

/-- The message the primary announce sends for `envA`. -/
def c9Msg : NotifyMsg :=
  ⟨"mining.notify", [JsonParam.str "1", JsonParam.blob "job", JsonParam.num 5]⟩

/-- The message the alternate announce sends for the same job. -/
def c9Msg2 : NotifyMsg :=
  ⟨"mining.notify", [JsonParam.str "1", JsonParam.str ("h" ++ u64LEHex 5)]⟩



lemma mapHas_eq_false_iff (m : ContributionMap) (k : ℕ) :
    mapHas m k = false ↔ ∀ e ∈ m, e.1 ≠ k := by
  simp [mapHas]

lemma mapSet_of_not_has (m : ContributionMap) (k : ℕ) (v : Contribution)
    (h : mapHas m k = false) : mapSet m k v = m ++ [(k, v)] := by
  simp [mapSet, h]

lemma mapDelete_cons_self (e : ℕ × Contribution) (rest : ContributionMap)
    (h : ∀ x ∈ rest, x.1 ≠ e.1) : mapDelete (e :: rest) e.1 = rest := by
  have h2 : mapDelete (e :: rest) e.1 = mapDelete rest e.1 := by
    simp [mapDelete, List.filter_cons]
  rw [h2]
  simp only [mapDelete]
  exact List.filter_eq_self.mpr (fun x hx => by simp [h x hx])

lemma foldl_mapDelete_take (t : ℕ) :
    ∀ (m : ContributionMap), (m.map Prod.fst).Nodup →
      (m.take t).foldl (fun acc e => mapDelete acc e.1) m = m.drop t := by
  induction t with
  | zero => intro m _; simp
  | succ t ih =>
    intro m hm
    cases m with
    | nil => simp
    | cons e rest =>
      have hkeys : ∀ x ∈ rest, x.1 ≠ e.1 := by
        simp only [List.map_cons, List.nodup_cons] at hm
        intro x hx
        exact fun hcontra => hm.1 (hcontra ▸ List.mem_map_of_mem Prod.fst hx)
      have hrest : (rest.map Prod.fst).Nodup := by
        simp only [List.map_cons, List.nodup_cons] at hm
        exact hm.2
      simp only [List.take_succ_cons, List.foldl_cons, List.drop_succ_cons]
      rw [mapDelete_cons_self e rest hkeys]
      exact ih rest hrest

lemma contribOrder_pairwise_of_ts (m : ContributionMap)
    (h : m.Pairwise (fun a b => a.2.timestamp ≤ b.2.timestamp)) :
    m.Pairwise (fun a b => contribOrder a b = true) := by
  exact h.imp (fun hab => by simpa [contribOrder] using hab)

lemma pruneList_eq_drop (w : ℕ) (m : ContributionMap)
    (hs : m.Pairwise (fun a b => a.2.timestamp ≤ b.2.timestamp))
    (hn : (m.map Prod.fst).Nodup) :
    pruneList w m = m.drop (m.length - w) := by
  unfold pruneList
  by_cases h : m.length > w
  · rw [if_pos h, List.mergeSort_of_sorted (contribOrder_pairwise_of_ts m hs)]
    exact foldl_mapDelete_take (m.length - w) m hn
  · rw [if_neg h]
    have h0 : m.length - w = 0 := by omega
    rw [h0, List.drop_zero]

lemma submit_accepted_inv (env : Env) (x : SubmitInput) (s s' : StratumState)
    (ev : Option (String × String × Dec))
    (h : submit env x s = (s', .accepted ev)) :
    ∃ n, parseHex? x.work = some n ∧ mapHas s.contributions n = false ∧
      s' = pruneContributions { s with
        contributions := s.contributions ++ [(n, mkContribution x)]
        shareHistory := s.shareHistory ++ [(x.now, x.difficulty)]
        recordedShares := s.recordedShares ++
          [((splitIdentity x.identity).1, ((splitIdentity x.identity).2).getD "default", x.difficulty)] } := by
  unfold submit at h
  cases hpw : (env.getHash x.jobId).bind env.getPoW with
  | none =>
    simp only [hpw] at h
    simp at h
  | some pow =>
    simp only [hpw] at h
    cases hparse : parseHex? x.work with
    | none =>
      simp only [hparse] at h
      simp at h
    | some n =>
      simp only [hparse] at h
      by_cases hdup : mapHas s.contributions n = true
      · rw [if_pos hdup] at h
        simp at h
      · rw [if_neg hdup] at h
        have hfresh : mapHas s.contributions n = false := by
          simpa using hdup
        refine ⟨n, rfl, hfresh, ?_⟩
        by_cases hlow : env.calculateTarget x.difficulty < (pow.checkWork n).2
        · rw [if_pos hlow] at h
          simp at h
        · rw [if_neg hlow] at h
          rw [mapSet_of_not_has s.contributions n _ hfresh] at h
          by_cases hblk : (pow.checkWork n).1 = true
          · rw [if_pos hblk] at h
            cases hnode : x.nodeSubmitResult with
            | none => rw [hnode] at h; simp at h
            | some bh =>
              rw [hnode] at h
              simp only [Prod.mk.injEq] at h
              exact h.1.symm ▸ by rfl
          · rw [if_neg hblk] at h
            simp only [Prod.mk.injEq] at h
            exact h.1.symm ▸ by rfl


lemma submitList_window_inv (env : Env) :
    ∀ (inputs : List SubmitInput) (P : List (ℕ × Contribution)) (s s' : StratumState),
      s.contributions = P.drop (P.length - s.pplnsWindowSize) →
      ((P ++ inputs.map inputEntry).map (fun e => e.2.timestamp)).Pairwise (· < ·) →
      (s.contributions.map Prod.fst).Nodup →
      submitList env s inputs = some s' →
      s'.contributions =
        (P ++ inputs.map inputEntry).drop
          ((P ++ inputs.map inputEntry).length - s.pplnsWindowSize) ∧
      s'.pplnsWindowSize = s.pplnsWindowSize := by
  intro inputs
  induction inputs with
  | nil =>
    intro P s s' hwin _ _ hrun
    simp only [submitList] at hrun
    cases hrun
    simpa using hwin
  | cons x xs ih =>
    intro P s s' hwin hts hnd hrun
    simp only [submitList] at hrun
    cases hsub : submit env x s with
    | mk s2 out =>
      rw [hsub] at hrun
      cases out with
      | rejected e => simp at hrun
      | crashed => simp at hrun
      | accepted ev =>
        have hrun2 : submitList env s2 xs = some s' := hrun
        obtain ⟨n, hparse, hfresh, hs2⟩ := submit_accepted_inv env x s s2 ev hsub
        have hentry : inputEntry x = (n, mkContribution x) := by
          simp [inputEntry, hparse]
        have hW : s2.pplnsWindowSize = s.pplnsWindowSize := by rw [hs2]; rfl
        have hsubl : (s.contributions ++ [(n, mkContribution x)]).Sublist
            (P ++ (n, mkContribution x) :: xs.map inputEntry) := by
          have h1 : s.contributions.Sublist P := hwin ▸ List.drop_sublist _ _
          have h2 := h1.append (List.Sublist.refl [(n, mkContribution x)])
          have h3 : (P ++ [(n, mkContribution x)]).Sublist
              (P ++ (n, mkContribution x) :: xs.map inputEntry) :=
            (List.Sublist.refl P).append
              (List.cons_sublist_cons.mpr (List.nil_sublist _))
          exact h2.trans h3
        have hp : (P ++ (n, mkContribution x) :: xs.map inputEntry).Pairwise
            (fun a b => a.2.timestamp < b.2.timestamp) := by
          have hmap := List.pairwise_map.mp hts
          simpa [hentry] using hmap
        have htsl : (s.contributions ++ [(n, mkContribution x)]).Pairwise
            (fun a b => a.2.timestamp ≤ b.2.timestamp) :=
          (hp.sublist hsubl).imp (fun hab => le_of_lt hab)
        have hkn : ∀ y ∈ s.contributions, y.1 ≠ n := (mapHas_eq_false_iff _ _).mp hfresh
        have hndkeys : ((s.contributions ++ [(n, mkContribution x)]).map Prod.fst).Nodup := by
          simp only [List.map_append, List.map_cons, List.map_nil]
          refine List.Nodup.append hnd (List.nodup_singleton n) ?_
          intro a ha hb
          simp only [List.mem_singleton] at hb
          obtain ⟨y, hy, hya⟩ := List.mem_map.mp ha
          exact hkn y hy (hya.trans hb)
        have hc2a : s2.contributions =
            (s.contributions ++ [(n, mkContribution x)]).drop
              ((s.contributions ++ [(n, mkContribution x)]).length - s.pplnsWindowSize) := by
          rw [hs2]
          exact pruneList_eq_drop _ _ htsl hndkeys
        have hnd2 : (s2.contributions.map Prod.fst).Nodup := by
          have hsl : s2.contributions.Sublist (s.contributions ++ [(n, mkContribution x)]) := by
            rw [hc2a]; exact List.drop_sublist _ _
          exact List.Nodup.sublist (hsl.map Prod.fst) hndkeys
        have hc2 : s2.contributions =
            (P ++ [(n, mkContribution x)]).drop
              ((P.length + 1) - s.pplnsWindowSize) := by
          rw [hc2a]
          have hd : P.length - s.pplnsWindowSize ≤ P.length := Nat.sub_le _ _
          have happ : s.contributions ++ [(n, mkContribution x)] =
              (P ++ [(n, mkContribution x)]).drop (P.length - s.pplnsWindowSize) := by
            rw [hwin, List.drop_append_of_le_length hd]
          rw [happ, List.drop_drop]
          congr 1
          have hlen : ((P ++ [(n, mkContribution x)]).drop
              (P.length - s.pplnsWindowSize)).length
              = (P.length + 1) - (P.length - s.pplnsWindowSize) := by
            simp [List.length_drop]
          rw [hlen]
          omega
        have hts2 : (((P ++ [(n, mkContribution x)]) ++ xs.map inputEntry).map
            (fun e => e.2.timestamp)).Pairwise (· < ·) := by
          simpa [List.append_assoc, hentry] using hts
        have hinv2 : s2.contributions =
            (P ++ [(n, mkContribution x)]).drop
              ((P ++ [(n, mkContribution x)]).length - s2.pplnsWindowSize) := by
          rw [hW, hc2]
          simp [List.length_append]
        have hres := ih (P ++ [(n, mkContribution x)]) s2 s' hinv2 hts2 hnd2 hrun2
        refine ⟨?_, hres.2.trans hW⟩
        rw [hres.1, hW]
        simp [List.append_assoc, hentry, List.length_append]


lemma mapDelete_sublist (m : ContributionMap) (k : ℕ) : (mapDelete m k).Sublist m := by
  simp only [mapDelete]
  exact List.filter_sublist m

lemma foldl_mapDelete_sublist (l : List (ℕ × Contribution)) :
    ∀ (m : ContributionMap), (l.foldl (fun acc e => mapDelete acc e.1) m).Sublist m := by
  induction l with
  | nil => intro m; simp
  | cons e rest ih =>
    intro m
    simp only [List.foldl_cons]
    exact (ih (mapDelete m e.1)).trans (mapDelete_sublist m e.1)

lemma pruneList_sublist (w : ℕ) (m : ContributionMap) : (pruneList w m).Sublist m := by
  unfold pruneList
  by_cases h : m.length > w
  · rw [if_pos h]
    exact foldl_mapDelete_sublist _ m
  · rw [if_neg h]

lemma length_mapDelete_lt (m : ContributionMap) (k : ℕ) (hk : ∃ x ∈ m, x.1 = k) :
    (mapDelete m k).length < m.length := by
  simp only [mapDelete]
  apply List.length_filter_lt_length_iff_exists.mpr
  obtain ⟨x, hx, hxk⟩ := hk
  exact ⟨x, hx, by simp [hxk]⟩

lemma foldl_mapDelete_length (l : List (ℕ × Contribution)) :
    ∀ (m : ContributionMap),
      (l.map Prod.fst).Nodup →
      (∀ e ∈ l, ∃ x ∈ m, x.1 = e.1) →
      (l.foldl (fun acc e => mapDelete acc e.1) m).length + l.length ≤ m.length := by
  induction l with
  | nil => intro m _ _; simp
  | cons e rest ih =>
    intro m hnd hmem
    simp only [List.foldl_cons, List.length_cons]
    have h1 : (mapDelete m e.1).length < m.length :=
      length_mapDelete_lt m e.1 (hmem e (List.mem_cons_self e rest))
    have hnd' : (rest.map Prod.fst).Nodup := by
      simp only [List.map_cons, List.nodup_cons] at hnd
      exact hnd.2
    have hne : ∀ y ∈ rest, y.1 ≠ e.1 := by
      simp only [List.map_cons, List.nodup_cons] at hnd
      intro y hy hcon
      exact hnd.1 (hcon ▸ List.mem_map_of_mem Prod.fst hy)
    have hmem' : ∀ y ∈ rest, ∃ x ∈ mapDelete m e.1, x.1 = y.1 := by
      intro y hy
      obtain ⟨x, hx, hxy⟩ := hmem y (List.mem_cons_of_mem e hy)
      refine ⟨x, ?_, hxy⟩
      simp only [mapDelete, List.mem_filter]
      exact ⟨hx, by simp [hxy, hne y hy]⟩
    have h2 := ih (mapDelete m e.1) hnd' hmem'
    omega

lemma pruneList_length_of_gt (w : ℕ) (m : ContributionMap)
    (hnd : (m.map Prod.fst).Nodup) (h : m.length > w) :
    (pruneList w m).length ≤ w := by
  unfold pruneList
  rw [if_pos h]
  show (((m.mergeSort contribOrder).take ((m.mergeSort contribOrder).length - w)).foldl
      (fun acc e => mapDelete acc e.1) m).length ≤ w
  have hperm : (m.mergeSort contribOrder).Perm m := List.mergeSort_perm m contribOrder
  have hlen : (m.mergeSort contribOrder).length = m.length := hperm.length_eq
  have hndE : ((m.mergeSort contribOrder).map Prod.fst).Nodup :=
    ((hperm.map Prod.fst).nodup_iff).mpr hnd
  have hndT : (((m.mergeSort contribOrder).take ((m.mergeSort contribOrder).length - w)).map
      Prod.fst).Nodup :=
    List.Nodup.sublist ((List.take_sublist _ _).map Prod.fst) hndE
  have hmemT : ∀ e ∈ (m.mergeSort contribOrder).take ((m.mergeSort contribOrder).length - w),
      ∃ x ∈ m, x.1 = e.1 := by
    intro e he
    exact ⟨e, hperm.mem_iff.mp (List.mem_of_mem_take he), rfl⟩
  have hlenT : ((m.mergeSort contribOrder).take ((m.mergeSort contribOrder).length - w)).length
      = (m.mergeSort contribOrder).length - w := by
    rw [List.length_take]
    omega
  have h2 := foldl_mapDelete_length _ m hndT hmemT
  omega

lemma pruneList_of_le (w : ℕ) (m : ContributionMap) (h : ¬ m.length > w) :
    pruneList w m = m := by
  unfold pruneList
  rw [if_neg h]

lemma submitList_length_inv (env : Env) :
    ∀ (inputs : List SubmitInput) (s s' : StratumState),
      s.contributions.length ≤ s.pplnsWindowSize →
      (s.contributions.map Prod.fst).Nodup →
      submitList env s inputs = some s' →
      s'.contributions.length ≤ s.pplnsWindowSize := by
  intro inputs
  induction inputs with
  | nil =>
    intro s s' hlen _ hrun
    simp only [submitList] at hrun
    cases hrun
    exact hlen
  | cons x xs ih =>
    intro s s' hlen hnd hrun
    simp only [submitList] at hrun
    cases hsub : submit env x s with
    | mk s2 out =>
      rw [hsub] at hrun
      cases out with
      | rejected e => simp at hrun
      | crashed => simp at hrun
      | accepted ev =>
        obtain ⟨n, hparse, hfresh, hs2⟩ := submit_accepted_inv env x s s2 ev hsub
        have hW : s2.pplnsWindowSize = s.pplnsWindowSize := by rw [hs2]; rfl
        have hkn : ∀ y ∈ s.contributions, y.1 ≠ n := (mapHas_eq_false_iff _ _).mp hfresh
        have hndkeys : ((s.contributions ++ [(n, mkContribution x)]).map Prod.fst).Nodup := by
          simp only [List.map_append, List.map_cons, List.map_nil]
          refine List.Nodup.append hnd (List.nodup_singleton n) ?_
          intro a ha hb
          simp only [List.mem_singleton] at hb
          obtain ⟨y, hy, hya⟩ := List.mem_map.mp ha
          exact hkn y hy (hya.trans hb)
        have hc2 : s2.contributions =
            pruneList s.pplnsWindowSize (s.contributions ++ [(n, mkContribution x)]) := by
          rw [hs2]
          rfl
        have hlen2 : s2.contributions.length ≤ s.pplnsWindowSize := by
          rw [hc2]
          by_cases hgt : (s.contributions ++ [(n, mkContribution x)]).length > s.pplnsWindowSize
          · exact pruneList_length_of_gt _ _ hndkeys hgt
          · rw [pruneList_of_le _ _ hgt]
            exact Nat.le_of_not_lt hgt
        have hnd2 : (s2.contributions.map Prod.fst).Nodup := by
          rw [hc2]
          exact List.Nodup.sublist ((pruneList_sublist _ _).map Prod.fst) hndkeys
        have h3 := ih s2 s' (hW.symm ▸ hlen2) hnd2 hrun
        rw [hW] at h3
        exact h3

/-- Claim C4: after every sequence of accepted share insertions the
contribution window holds at most `PPLNS_WINDOW` (100,000) entries —
unconditionally, with no assumption on the share timestamps (pruning
deletes one entry per surplus key, and window nonce keys are distinct
by the duplicate-share guard) — and when the insertions additionally
carry strictly increasing timestamps and number `N > PPLNS_WINDOW`,
the window contains exactly the most recent `PPLNS_WINDOW` of them:
the oldest-by-timestamp entries are the ones evicted. -/
theorem c4_window_eviction (env : Env) (inputs : List SubmitInput) (s' : StratumState)
    (hrun : submitList env initStratum inputs = some s') :
    s'.contributions.length ≤ 100000 ∧
      ((inputs.map (fun x => x.now)).Pairwise (· < ·) →
        inputs.length > 100000 →
        s'.contributions = (inputs.map inputEntry).drop (inputs.length - 100000)) := by
  constructor
  · simpa [initStratum] using
      submitList_length_inv env inputs initStratum s'
        (by simp [initStratum]) (by simp [initStratum]) hrun
  · intro hts _
    have hts' : ((([] : List (ℕ × Contribution)) ++ inputs.map inputEntry).map
        (fun e => e.2.timestamp)).Pairwise (· < ·) := by
      simpa [List.map_map, Function.comp] using hts
    have h := submitList_window_inv env inputs [] initStratum s'
      (by simp [initStratum]) hts' (by simp [initStratum]) hrun
    simpa [initStratum] using h.1

lemma mem_foldl_mapDelete (l : List (ℕ × Contribution)) :
    ∀ (m : ContributionMap) (e : ℕ × Contribution),
      e ∈ l.foldl (fun acc d => mapDelete acc d.1) m → e ∈ m := by
  induction l with
  | nil => intro m e h; simpa using h
  | cons d ds ih =>
    intro m e h
    simp only [List.foldl_cons] at h
    have h2 := ih (mapDelete m d.1) e h
    exact List.mem_of_mem_filter h2

lemma mem_pruneList (w : ℕ) (m : ContributionMap) (e : ℕ × Contribution)
    (h : e ∈ pruneList w m) : e ∈ m := by
  unfold pruneList at h
  by_cases hlen : m.length > w
  · rw [if_pos hlen] at h
    exact mem_foldl_mapDelete _ m e h
  · rw [if_neg hlen] at h
    exact h

/-- Claim C8 (amended): `Stratum.submit` records the address taken from
its own `identity` argument without running `Address.validate` (only
`authorize` validates).  Consequently the window invariant provable from
the code is conditional: if every entry of the starting window and the
address component of every accepted submit identity pass
`Address.validate`, then every entry of the resulting window does.  The
unconditional claim is refuted by `c8_invalid_address_reachable`. -/
theorem c8_validated_addresses (env : Env) :
    ∀ (inputs : List SubmitInput) (s s' : StratumState),
      (∀ e ∈ s.contributions, env.validate e.2.address = true) →
      (∀ x ∈ inputs, env.validate (splitIdentity x.identity).1 = true) →
      submitList env s inputs = some s' →
      ∀ e ∈ s'.contributions, env.validate e.2.address = true := by
  intro inputs
  induction inputs with
  | nil =>
    intro s s' hs _ hrun
    simp only [submitList] at hrun
    cases hrun
    exact hs
  | cons x xs ih =>
    intro s s' hs hin hrun
    simp only [submitList] at hrun
    cases hsub : submit env x s with
    | mk s2 out =>
      rw [hsub] at hrun
      cases out with
      | rejected e => simp at hrun
      | crashed => simp at hrun
      | accepted ev =>
        obtain ⟨n, hparse, hfresh, hs2⟩ := submit_accepted_inv env x s s2 ev hsub
        refine ih s2 s' ?_ (fun y hy => hin y (List.mem_cons_of_mem x hy)) hrun
        intro e he
        rw [hs2] at he
        simp only [pruneContributions] at he
        have he2 := mem_pruneList _ _ e he
        rcases List.mem_append.mp he2 with h1 | h2
        · exact hs e h1
        · simp only [List.mem_singleton] at h2
          subst h2
          exact hin x (List.mem_cons_self x xs)

/-- Claim C2: a `mining.submit` on a live job whose parsed nonce is
already a key of the contribution window is rejected with
`duplicate-share` (error code 21) and the returned state is the input
state — window, share history and recorded miner statistics unchanged —
while a first submission of a fresh nonce of sufficient difficulty (here
a non-block share) is accepted. -/
theorem c2_duplicate_rejected (env : Env) (x : SubmitInput) (s : StratumState)
    (n : ℕ) (pw : PoWState)
    (hpw : (env.getHash x.jobId).bind env.getPoW = some pw)
    (hparse : parseHex? x.work = some n) :
    (mapHas s.contributions n = true →
      submit env x s = (s, .rejected .duplicateShare)) ∧
    errorCode .duplicateShare = 21 ∧
    (∀ t, mapHas s.contributions n = false → pw.checkWork n = (false, t) →
      t ≤ env.calculateTarget x.difficulty →
      (submit env x s).2 = .accepted none) := by
  refine ⟨?_, rfl, ?_⟩
  · intro hdup
    unfold submit
    simp only [hpw, hparse]
    rw [if_pos hdup]
  · intro t hfresh hcw hle
    unfold submit
    simp only [hpw, hparse, hcw, hfresh]
    simp [Nat.not_lt.mpr hle]

/-- Claim C3: on an existing job with a fresh nonce, when `checkWork`
returns a target numerically above `calculateTarget(session.difficulty)`
the submit is rejected with `low-difficulty-share` (code 22) and no
contribution is appended (the state returned is the input state); when
the target is at most the session target the share passes the
difficulty check and the contribution is appended to the window (then
standard pruning applies), provided a block-solving share's node
submission succeeds. -/
theorem c3_difficulty_gate (env : Env) (x : SubmitInput) (s : StratumState)
    (n : ℕ) (pw : PoWState) (isB : Bool) (t : ℕ)
    (hpw : (env.getHash x.jobId).bind env.getPoW = some pw)
    (hparse : parseHex? x.work = some n)
    (hfresh : mapHas s.contributions n = false)
    (hcw : pw.checkWork n = (isB, t)) :
    (env.calculateTarget x.difficulty < t →
      submit env x s = (s, .rejected .lowDifficultyShare) ∧
      errorCode .lowDifficultyShare = 22) ∧
    (t ≤ env.calculateTarget x.difficulty →
      (isB = false ∨ x.nodeSubmitResult ≠ none) →
      ∃ ev, submit env x s =
        (pruneContributions { s with
          contributions := s.contributions ++ [(n, mkContribution x)]
          shareHistory := s.shareHistory ++ [(x.now, x.difficulty)]
          recordedShares := s.recordedShares ++
            [((splitIdentity x.identity).1,
              ((splitIdentity x.identity).2).getD "default", x.difficulty)] },
          SubmitOutcome.accepted ev)) := by
  constructor
  · intro hlow
    refine ⟨?_, rfl⟩
    unfold submit
    simp only [hpw, hparse, hcw, hfresh]
    simp [hlow]
  · intro hle hnode
    unfold submit
    simp only [hpw, hparse, hcw, hfresh]
    rw [mapSet_of_not_has s.contributions n _ hfresh]
    cases isB with
    | false =>
      refine ⟨none, ?_⟩
      simp [Nat.not_lt.mpr hle, mkContribution]
    | true =>
      cases hnr : x.nodeSubmitResult with
      | none =>
        rcases hnode with h | h
        · cases h
        · exact absurd hnr h
      | some bh =>
        refine ⟨some (bh, (splitIdentity x.identity).1, x.difficulty), ?_⟩
        simp [Nat.not_lt.mpr hle, hnr, mkContribution]

/-- Claim C7 (amended): on a coinbase-maturity step for a block whose
color resolves to non-blue, the handler changes no miner balance and
produces no payout; its entire effect is popping the pending-reward
queue — in particular no orphaned status is recorded anywhere (the
source only logs a warning and even keeps the block's contribution
snapshot in `blockContributions`). -/
theorem c7_orphan_skip (colorOf : String → Option Bool) (threshold : Dec)
    (st : RewardingState) (db : String → ℤ) (amount : ℤ) (blockHash : String)
    (rest : List (ℤ × String))
    (hq : st.pendingRewards = (amount, blockHash) :: rest)
    (hc : colorOf blockHash = some false) :
    processPaymentsStep colorOf threshold st db =
      ({ st with pendingRewards := rest }, db, none) := by
  unfold processPaymentsStep
  rw [hq]
  simp [hc]

/-- Claim C10: when the `getCurrentBlockColor` RPC rejects, the `catch`
treats the block as non-blue: the pending reward is popped from the
queue permanently, no miner balance changes, and no payout callback is
invoked for that block. -/
theorem c10_rpc_failure_skips (colorOf : String → Option Bool) (threshold : Dec)
    (st : RewardingState) (db : String → ℤ) (amount : ℤ) (blockHash : String)
    (rest : List (ℤ × String))
    (hq : st.pendingRewards = (amount, blockHash) :: rest)
    (hc : colorOf blockHash = none) :
    processPaymentsStep colorOf threshold st db =
      ({ st with pendingRewards := rest }, db, none) := by
  unfold processPaymentsStep
  rw [hq]
  simp [hc]

/-- Claim C9 (amended): the primary `announce` sends `mining.notify`
with exactly three params `[jobId, encodeJob(hash, ts, encoding,
header), timestamp]`, while the alternate version sends exactly two
params `[jobId, prePoWHashHex concatenated with the 8-byte
little-endian timestamp hex]`; the two-param shape the claim requires
holds only for the alternate version. -/
theorem c9_notify_shapes (env : Env) (sess : NotifySession) (id hash : String) (ts : ℕ) :
    (∀ m, announceMsgV1 env sess id hash ts = some m →
      ∃ header, env.getHeader hash = some header ∧
        m.params = [JsonParam.str id,
          env.encodeJob hash ts (sess.encoding.getD Encoding.BigHeader) header,
          JsonParam.num ts] ∧ m.params.length = 3) ∧
    (∀ m, announceMsgV2 sess id hash ts = some m →
      m.params = [JsonParam.str id, JsonParam.str (hash ++ u64LEHex ts)] ∧
      m.params.length = 2) := by
  constructor
  · intro m hm
    unfold announceMsgV1 at hm
    cases hopen : sess.readyStateOpen with
    | false => rw [hopen] at hm; simp at hm
    | true =>
      rw [hopen] at hm
      simp only [if_true] at hm
      cases hh : env.getHeader hash with
      | none => rw [hh] at hm; cases hm
      | some header =>
        rw [hh] at hm
        cases hm
        exact ⟨header, rfl, rfl, rfl⟩
  · intro m hm
    unfold announceMsgV2 at hm
    cases hopen : sess.readyStateOpen with
    | false => rw [hopen] at hm; simp at hm
    | true =>
      rw [hopen] at hm
      simp only [if_true] at hm
      cases hm
      exact ⟨rfl, rfl⟩

/-- Claim C1: evaluation of the block-accepted path at a concrete state.
The window holds the entry `(15, cWin)` before the block event; after
`Pool.record` the snapshot `[cWin, cBlock]` is stored for the block but
the live window is empty — `dump()` drains the ledger instead of
copying it, contradicting the claim that every prior contribution is
still in the window after the snapshot. -/
theorem c1_record_clears_window :
    (15, cWin) ∈ p1.stratum.contributions ∧
    ((poolRecord p1 "h" cBlock).1).stratum.contributions = [] ∧
    mapGet? ((poolRecord p1 "h" cBlock).1).rewarding.blockContributions "h"
      = some [cWin, cBlock] := by decide

/-- Claim C5: scenario S5.  With the window snapshot holding A at
difficulty 1 and B at difficulty 3 (balances zero), a matured blue
coinbase of 1000 sompi at payment threshold 500 leaves A's stored
balance at 250, B's stored balance at zero, and invokes the payout
callback with 2 contributors and exactly the batch `[(B, 750)]`. -/
theorem c5_pplns_split :
    (processPaymentsStep colorBlue thr rw5 dbZero).2.1 "A" = 250 ∧
    (processPaymentsStep colorBlue thr rw5 dbZero).2.1 "B" = 0 ∧
    (processPaymentsStep colorBlue thr rw5 dbZero).2.2 = some (2, [("B", 750)]) ∧
    (processPaymentsStep colorBlue thr rw5 dbZero).1 = { rw5 with pendingRewards := [] } := by
  refine ⟨by decide, by decide, by decide, rfl⟩

/-- Claim C6: evaluation of the reward split at difficulties 2, 2, 3
(total work 7) and net amount `10^20` sompi.  Because the code divides
first at 20-significant-digit decimal precision, contributor A is
credited 28571428571428571429 instead of the exact
`floor(10^20 * 2 / 7) = 28571428571428571428`, and the three credits
sum to `10^20 + 1` — the distributed total exceeds the net block
amount, refuting the claimed floor formula and the dust bound. -/
theorem c6_rounding_overpays :
    (distribute thrBig (10 ^ 20) c6Contribs dbZero).1 "A" = 28571428571428571429 ∧
    (distribute thrBig (10 ^ 20) c6Contribs dbZero).1 "B" = 28571428571428571429 ∧
    (distribute thrBig (10 ^ 20) c6Contribs dbZero).1 "C" = 42857142857142857143 ∧
    (distribute thrBig (10 ^ 20) c6Contribs dbZero).2.1 = [] ∧
    Int.fdiv ((10 : ℤ) ^ 20 * 2) 7 = 28571428571428571428 ∧
    (28571428571428571429 + 28571428571428571429 + 42857142857142857143 : ℤ)
      = 100000000000000000001 ∧
    ((10 : ℤ) ^ 20 < 100000000000000000001) := by decide

/-- Claim C7 counterexample: at a concrete non-blue maturity event the
whole result of the handler is the input state with the queue popped —
balances untouched, no payout, the contribution snapshot still stored,
and no component of the state recording an orphaned status, refuting
the claim that the block's status is recorded as orphaned. -/
theorem c7_orphan_counterexample :
    processPaymentsStep colorRed thr rw7 dbZero
      = ({ rw7 with pendingRewards := [] }, dbZero, none) ∧
    ({ rw7 with pendingRewards := ([] : List (ℤ × String)) }).blockContributions
      = rw7.blockContributions := ⟨rfl, rfl⟩

/-- Witness for C7 at a concrete non-blue block. -/
theorem c7_orphan_skip_witness :
    processPaymentsStep colorRed thr rw7 dbZero
      = ({ rw7 with pendingRewards := [] }, dbZero, none) :=
  c7_orphan_skip colorRed thr rw7 dbZero 1000 "h" [] rfl rfl

/-- Witness for C10 at a concrete failing color RPC. -/
theorem c10_rpc_failure_witness :
    processPaymentsStep colorFail thr rw7 dbZero
      = ({ rw7 with pendingRewards := [] }, dbZero, none) :=
  c10_rpc_failure_skips colorFail thr rw7 dbZero 1000 "h" [] rfl rfl

/-- Claim C8 counterexample: a session authorizes with the valid address
`kaspa:good`, then submits with identity `bad.w`; the submit is
accepted and the resulting window contains an entry whose address fails
`Address.validate`, refuting the unconditional invariant. -/
theorem c8_invalid_address_reachable :
    authorize envA initStratum 0 "kaspa:good.w" = some s8 ∧
    (submit envA x8 s8).2 = SubmitOutcome.accepted none ∧
    ∃ e ∈ (submit envA x8 s8).1.contributions, envA.validate e.2.address = false := by
  decide

/-- Witness for C8's amended theorem on a one-submit trace whose
identity address validates. -/
theorem c8_validated_witness :
    (∀ e ∈ initStratum.contributions, envA.validate e.2.address = true) ∧
    (∀ x ∈ [x1], envA.validate (splitIdentity x.identity).1 = true) ∧
    (∀ e ∈ c8Final.contributions, envA.validate e.2.address = true) := by
  have hrun : submitList envA initStratum [x1] = some c8Final := by decide
  exact ⟨by decide, by decide,
    c8_validated_addresses envA [x1] initStratum c8Final (by decide) (by decide) hrun⟩

/-- Witness for C4 on two accepted submits with timestamps 1 and 2. -/
theorem c4_window_witness :
    c4Final.contributions.length ≤ 100000 ∧
      ((c4Inputs.map (fun x => x.now)).Pairwise (· < ·) →
        c4Inputs.length > 100000 →
        c4Final.contributions = (c4Inputs.map inputEntry).drop (c4Inputs.length - 100000)) := by
  have hrun : submitList envA initStratum c4Inputs = some c4Final := by decide
  exact c4_window_eviction envA c4Inputs c4Final hrun

/-- Witness for C2: the window already holds nonce 15 and the same
nonce is submitted again. -/
theorem c2_duplicate_witness :
    (mapHas sDup.contributions 15 = true →
      submit envA xDup sDup = (sDup, .rejected .duplicateShare)) ∧
    errorCode .duplicateShare = 21 ∧
    (∀ t, mapHas sDup.contributions 15 = false → powA.checkWork 15 = (false, t) →
      t ≤ envA.calculateTarget xDup.difficulty →
      (submit envA xDup sDup).2 = .accepted none) :=
  c2_duplicate_rejected envA xDup sDup 15 powA rfl rfl

/-- Witness for C3: nonce 15 against a fresh window with session
difficulty 100 and a `checkWork` target equal to the nonce. -/
theorem c3_difficulty_witness :
    (envA.calculateTarget xDup.difficulty < 15 →
      submit envA xDup initStratum = (initStratum, .rejected .lowDifficultyShare) ∧
      errorCode .lowDifficultyShare = 22) ∧
    (15 ≤ envA.calculateTarget xDup.difficulty →
      (false = false ∨ xDup.nodeSubmitResult ≠ none) →
      ∃ ev, submit envA xDup initStratum =
        (pruneContributions { initStratum with
          contributions := initStratum.contributions ++ [(15, mkContribution xDup)]
          shareHistory := initStratum.shareHistory ++ [(xDup.now, xDup.difficulty)]
          recordedShares := initStratum.recordedShares ++
            [((splitIdentity xDup.identity).1,
              ((splitIdentity xDup.identity).2).getD "default", xDup.difficulty)] },
          SubmitOutcome.accepted ev)) :=
  c3_difficulty_gate envA xDup initStratum 15 powA false 15 rfl rfl rfl rfl

/-- Claim C9 counterexample: the primary `announce` sends a
`mining.notify` whose params array has three entries, not two. -/
theorem c9_three_params :
    ∃ m, announceMsgV1 envA ⟨true, none⟩ "1" "h" 5 = some m ∧ m.params.length ≠ 2 :=
  ⟨c9Msg, by decide, by decide⟩

/-- Witness for C9's amended theorem at a concrete job announcement. -/
theorem c9_shapes_witness :
    (∃ header, envA.getHeader "h" = some header ∧
      c9Msg.params = [JsonParam.str "1",
        envA.encodeJob "h" 5 Encoding.BigHeader header, JsonParam.num 5] ∧
      c9Msg.params.length = 3) ∧
    (c9Msg2.params = [JsonParam.str "1", JsonParam.str ("h" ++ u64LEHex 5)] ∧
      c9Msg2.params.length = 2) :=
  ⟨(c9_notify_shapes envA ⟨true, none⟩ "1" "h" 5).1 c9Msg rfl,
   (c9_notify_shapes envA ⟨true, none⟩ "1" "h" 5).2 c9Msg2 rfl⟩
